import Mathlib

/-!
Verification development for the bounded-depth website crawler.

The repository ships the browser client (`static/js/script.js`) together
with a natural-language specification of the crawl engine.  The client is
embedded below directly from its source; the crawl-engine components that
are not part of the shipped sources (URL normalizer, frontier, aggregator,
report builder, HTTP endpoint) are modelled from the specification, as
marked on each definition.
-/

namespace Crawler

/-! ## URL normalizer (modelled from the spec) -/

/-- ASCII lowercasing of one character, as canonicalization applies it to
scheme and host. -/
def lowerChar (c : Char) : Char :=
  if 65 ≤ c.toNat ∧ c.toNat ≤ 90 then Char.ofNat (c.toNat + 32) else c

/-- Remove every trailing slash from a path (trailing-slash stripping). -/
def stripTrailingSlash (p : List Char) : List Char :=
  (p.reverse.dropWhile (fun c => c == '/')).reverse

/-- Drop the last path segment, keeping the directory part up to and
including its final slash. -/
def dropLastSegment (p : List Char) : List Char :=
  (p.reverse.dropWhile (fun c => c != '/')).reverse

/-- The components of a parsed absolute URL:
`scheme://host[:port]path[#fragment]`, where `path` also carries any
query string. -/
structure URLParts where
  scheme : List Char
  host : List Char
  port : Option (List Char)
  path : List Char
  fragment : Option (List Char)
deriving Repr, DecidableEq

/-- Modelled from the spec: the URL parser underlying the normalizer
(§4.1); the Python implementation is not among the shipped sources.
Splits `scheme://host[:port]path[#fragment]`; fails when the `://`
marker, the scheme, the host, or a digits-only port is missing. -/
def parseURL (cs : List Char) : Option URLParts :=
  let scheme := cs.takeWhile (fun c => c != ':')
  let rest0 := cs.dropWhile (fun c => c != ':')
  if rest0.take 3 ≠ [':', '/', '/'] then none
  else
    let rest := rest0.drop 3
    let authority := rest.takeWhile (fun c => c != '/' && c != '?' && c != '#')
    let tail := rest.dropWhile (fun c => c != '/' && c != '?' && c != '#')
    let host := authority.takeWhile (fun c => c != ':')
    let portPart := authority.dropWhile (fun c => c != ':')
    let path := tail.takeWhile (fun c => c != '#')
    let frag := tail.dropWhile (fun c => c != '#')
    let fragment : Option (List Char) := if frag = [] then none else some (frag.drop 1)
    if scheme = [] ∨ host = [] then none
    else if portPart = [] then some ⟨scheme, host, none, path, fragment⟩
    else
      let ds := portPart.drop 1
      if ds = [] ∨ ¬ (ds.all Char.isDigit) then none
      else some ⟨scheme, host, some ds, path, fragment⟩

/-- Reassemble URL components into a URL string (as a character list). -/
def serializeParts (p : URLParts) : List Char :=
  p.scheme ++ ':' :: '/' :: '/' ::
    (p.host ++
      (match p.port with | none => [] | some ds => ':' :: ds) ++
      p.path ++
      (match p.fragment with | none => [] | some f => '#' :: f))

/-- Modelled from the spec: canonicalization (§4.1) — lowercase
scheme and host, strip the default port, strip the fragment, and
normalize the trailing slash. -/
def canonParts (p : URLParts) : URLParts :=
  let scheme := p.scheme.map lowerChar
  { scheme := scheme
    host := p.host.map lowerChar
    port :=
      match p.port with
      | none => none
      | some ds =>
        if (scheme = "http".toList ∧ ds = "80".toList) ∨
            (scheme = "https".toList ∧ ds = "443".toList)
        then none else some ds
    path := stripTrailingSlash p.path
    fragment := none }

/-- Modelled from the spec: the URL normalizer (§2, §4.1) — parse,
canonicalize, reject non-HTTP(S) schemes, and reserialize. -/
def normalizeURL (s : String) : Option String :=
  match parseURL s.toList with
  | none => none
  | some p =>
    let q := canonParts p
    if q.scheme = "http".toList ∨ q.scheme = "https".toList
    then some (String.mk (serializeParts q)) else none

/-- Modelled from the spec: resolution of a discovered link against the
page it was found on (§4.1) — absolute links are normalized directly,
root-relative and path-relative links are resolved against the base
first. -/
def resolveAndNormalize (base : String) (u : String) : Option String :=
  match parseURL u.toList with
  | some _ => normalizeURL u
  | none =>
    match parseURL base.toList with
    | none => none
    | some b =>
      match u.toList with
      | [] => none
      | '/' :: _ =>
        normalizeURL (String.mk (serializeParts
          { b with path := u.toList, fragment := none }))
      | _ =>
        let dir := dropLastSegment b.path
        normalizeURL (String.mk (serializeParts
          { b with path := (if dir = [] then ['/'] else dir) ++ u.toList,
                   fragment := none }))

/-- The host component of a URL string, when it parses. -/
def hostOf (u : String) : Option (List Char) :=
  (parseURL u.toList).map URLParts.host

/-- The shape invariants every parsed URL enjoys: nonempty scheme and
host made of delimiter-free characters, a digits-only port, and a path
that is free of `#` and starts (when nonempty) with `/` or `?`. -/
structure PartsInv (p : URLParts) : Prop where
  scheme_ne : p.scheme ≠ []
  scheme_no_colon : ∀ c ∈ p.scheme, c ≠ ':'
  host_ne : p.host ≠ []
  host_ok : ∀ c ∈ p.host, c ≠ ':' ∧ c ≠ '/' ∧ c ≠ '?' ∧ c ≠ '#'
  port_ok : ∀ ds, p.port = some ds → ds ≠ [] ∧ ∀ c ∈ ds, c.isDigit = true
  path_ok : ∀ c ∈ p.path, c ≠ '#'
  path_head : ∀ c, p.path.head? = some c → c = '/' ∨ c = '?'

/-! ## Report data model (JSON shape of §6) -/

/-- A hyperlink extracted from a page: `{"text": string, "url": string}`. -/
structure LinkItem where
  text : String
  url : String
deriving Repr, DecidableEq

/-- An image extracted from a page: `{"alt": string, "src": string}`. -/
structure ImageItem where
  alt : String
  src : String
deriving Repr, DecidableEq

/-- `"text_content"`: ordered paragraphs and the total word count. -/
structure TextContent where
  paragraphs : List String
  total_word_count : Nat
deriving Repr, DecidableEq

/-- One entry of `"detailed_pages"`. -/
structure PageRecord where
  url : String
  title : String
  links_found : Nat
  images_found : Nat
  tables_found : Nat
  text_content : TextContent
  links : List LinkItem
  images : List ImageItem
deriving Repr, DecidableEq

/-- `"crawl_summary"` of the report JSON. -/
structure CrawlSummary where
  total_pages_crawled : Nat
  total_links_found : Nat
  total_images_found : Nat
  total_tables_found : Nat
  total_words_extracted : Nat
  crawl_duration_seconds : Rat
deriving Repr, DecidableEq

/-- The full crawl report: summary plus the ordered `detailed_pages`
mapping (a JS object keyed by `pageKey`, insertion order preserved). -/
structure CrawlReport where
  crawl_summary : CrawlSummary
  detailed_pages : List (String × PageRecord)
deriving Repr, DecidableEq

/-! ## Crawl engine (modelled from the spec) -/

/-- The environment the crawler runs against: fetching plus extracting a
normalized URL either yields a `PageRecord` or fails (timeout, HTTP
error, unsupported content type, ...), in which case the page is
skipped. -/
def Web : Type := String → Option PageRecord

/-- A frontier entry: a discovered URL tagged with its depth (§3). -/
structure FrontierEntry where
  url : String
  depth : Nat
deriving Repr, DecidableEq

/-- The crawl state: the depth-tagged FIFO queue, the visited set, the
pages collected so far in visitation order, and the trace of every
`FrontierEntry` ever created. -/
structure CrawlState where
  queue : List FrontierEntry
  visited : List String
  pages : List (String × PageRecord)
  created : List FrontierEntry
deriving Repr, DecidableEq

/-- Modelled from the spec: the frontier eligibility policy (§4.4, in
order) — normalize the candidate; reject if `fromDepth + 1 > maxDepth`;
reject if already visited; reject if the host differs from the seed's
host. On acceptance the URL is marked visited immediately and a new
`FrontierEntry` at depth `fromDepth + 1` is enqueued. -/
def tryEnqueue (maxDepth : Nat) (seedHost : Option (List Char)) (base : String)
    (fromDepth : Nat) (st : CrawlState) (link : LinkItem) : CrawlState :=
  match resolveAndNormalize base link.url with
  | none => st
  | some v =>
    if fromDepth + 1 > maxDepth then st
    else if v ∈ st.visited then st
    else if hostOf v ≠ seedHost then st
    else
      { st with
          queue := st.queue ++ [{ url := v, depth := fromDepth + 1 }],
          visited := v :: st.visited,
          created := st.created ++ [{ url := v, depth := fromDepth + 1 }] }

/-- Modelled from the spec: one orchestrator step (§4.7) — pop the next
frontier entry, fetch and extract it (a failed page is skipped and the
crawl continues), record the page, and feed its links back into the
frontier. -/
def crawlStep (web : Web) (maxDepth : Nat) (seedHost : Option (List Char))
    (st : CrawlState) : CrawlState :=
  match st.queue with
  | [] => st
  | e :: rest =>
    let st1 : CrawlState := { st with queue := rest }
    match web e.url with
    | none => st1
    | some page =>
      let st2 : CrawlState := { st1 with pages := st1.pages ++ [(e.url, page)] }
      page.links.foldl (tryEnqueue maxDepth seedHost e.url e.depth) st2

/-- Modelled from the spec: the orchestrator loop — repeat `crawlStep`
until the frontier is exhausted (fuel plays the role of the global
page-count safety cap). -/
def crawlLoop (web : Web) (maxDepth : Nat) (seedHost : Option (List Char)) :
    Nat → CrawlState → CrawlState
  | 0, st => st
  | fuel + 1, st =>
    if st.queue.isEmpty then st
    else crawlLoop web maxDepth seedHost fuel (crawlStep web maxDepth seedHost st)

/-- Modelled from the spec: a whole crawl (§4.7) — normalize the seed
(fatal failure when that is impossible), seed the frontier at depth 0,
and run the loop. -/
def runCrawl (web : Web) (seedURL : String) (maxDepth : Nat) (fuel : Nat) :
    Option CrawlState :=
  match normalizeURL seedURL with
  | none => none
  | some s =>
    some (crawlLoop web maxDepth (hostOf s) fuel
      { queue := [{ url := s, depth := 0 }], visited := [s], pages := [],
        created := [{ url := s, depth := 0 }] })

/-- `v` is reachable from the seed within `n` hops in the
normalized-link graph induced by `web`. -/
inductive ReachWithin (web : Web) (seed : String) : String → Nat → Prop where
  | seed (n : Nat) : ReachWithin web seed seed n
  | step {u : String} {n : Nat} {page : PageRecord} {l : LinkItem} {v : String} :
      ReachWithin web seed u n → web u = some page → l ∈ page.links →
      resolveAndNormalize u l.url = some v → ReachWithin web seed v (n + 1)

/-- The traversal invariant: every queued entry is reachable within its
recorded depth and within the depth budget, every collected page is
reachable within the budget, and every frontier entry ever created
respects the budget. -/
def CrawlInv (web : Web) (seed : String) (d : Nat) (st : CrawlState) : Prop :=
  (∀ e ∈ st.queue, ReachWithin web seed e.url e.depth ∧ e.depth ≤ d) ∧
  (∀ pr ∈ st.pages, ReachWithin web seed pr.1 d) ∧
  (∀ e ∈ st.created, e.depth ≤ d)

/-! ## Aggregator and report builder (modelled from the spec) -/

/-- The summary before any page has been recorded. -/
def initialSummary : CrawlSummary :=
  { total_pages_crawled := 0, total_links_found := 0, total_images_found := 0,
    total_tables_found := 0, total_words_extracted := 0,
    crawl_duration_seconds := 0 }

/-- Modelled from the spec: `record(pageRecord)` (§4.5) — called exactly
once per successfully fetched page; increments each counter by that
page's contribution and `total_pages_crawled` by one. -/
def recordPage (s : CrawlSummary) (p : PageRecord) : CrawlSummary :=
  { s with
      total_pages_crawled := s.total_pages_crawled + 1,
      total_links_found := s.total_links_found + p.links_found,
      total_images_found := s.total_images_found + p.images_found,
      total_tables_found := s.total_tables_found + p.tables_found,
      total_words_extracted :=
        s.total_words_extracted + p.text_content.total_word_count }

/-- Modelled from the spec: `finalize(aggregatorState, pageRecords)`
(§4.6) — pure assembly of the report from the recorded pages and the
measured duration. -/
def finalizeReport (duration : Rat) (pages : List (String × PageRecord)) :
    CrawlReport :=
  { crawl_summary :=
      { pages.foldl (fun s pr => recordPage s pr.2) initialSummary with
          crawl_duration_seconds := duration },
    detailed_pages := pages }

/-! ## HTTP endpoint (modelled from the spec) -/

/-- The response shape of §6: `{success: true, report, domain}` on
success, `{success: false, error}` on fatal failure; an error response
carries no report at all. -/
inductive EndpointResponse where
  | ok (report : CrawlReport) (domain : String)
  | err (error : String)
deriving Repr, DecidableEq

/-- The JSON body `{url, max_depth}` the endpoint consumes (§6). -/
structure CrawlRequest where
  url : String
  max_depth : Nat
deriving Repr, DecidableEq

/-- Modelled from the spec: the `/deep-crawl` endpoint (§4.7, §6, §7) —
a seed URL that cannot be normalized is the only crawl-fatal condition
and yields `{success: false, error}` with no report; otherwise the crawl
runs and the finalized report is returned with the seed's domain. -/
def handleCrawlRequest (web : Web) (fuel : Nat) (duration : Rat)
    (req : CrawlRequest) : EndpointResponse :=
  match runCrawl web req.url req.max_depth fuel with
  | none => .err ("Invalid seed URL: " ++ req.url)
  | some st =>
    .ok (finalizeReport duration st.pages)
      (String.mk ((hostOf ((normalizeURL req.url).getD req.url)).getD []))

/-! ## Client-side embedding (from `static/js/script.js`) -/

/-- The pieces of DOM state the script mutates: the crawl button, the
loading section and the result section. -/
structure ClientState where
  crawlBtnDisabled : Bool
  crawlBtnText : String
  loadingHidden : Bool
  resultHidden : Bool
  /-- What the result section currently shows (empty, a report, or an
  error banner). -/
  resultReport : Option (CrawlReport × String)
  resultError : Option String
  /-- `window.currentReport`; the script reads it in `downloadReport`
  but never assigns it. -/
  currentReport : Option CrawlReport
deriving Repr, DecidableEq

/-- Client state when the page has just loaded. -/
def initialClientState : ClientState :=
  { crawlBtnDisabled := false
    crawlBtnText := "Start Deep Crawl"
    loadingHidden := true
    resultHidden := true
    resultReport := none
    resultError := none
    currentReport := none }

/-- The JSON body `JSON.stringify({url: url, max_depth: maxDepth})` that
`startCrawling` posts to `/deep-crawl`. -/
structure CrawlRequestBody where
  url : String
  max_depth : Int
deriving Repr, DecidableEq

/-- The parsed response of `/deep-crawl` as the client consumes it:
`data.success` selects between `{report, domain}` and `{error}`. -/
inductive ServerResponse where
  | ok (report : CrawlReport) (domain : String)
  | err (error : String)
deriving Repr, DecidableEq

/-- What one `fetch('/deep-crawl', ...)` call can come back as from the
client's point of view: a parsed JSON response, or a thrown network
error caught by the `catch` block. -/
inductive FetchOutcome where
  | response (data : ServerResponse)
  | networkError (message : String)
deriving Repr, DecidableEq

/-- `displayResults(report, domain)`: fills the result section with the
summary cards, the page items and the download button, then unhides it.
It does not assign `window.currentReport`. -/
def displayResults (s : ClientState) (report : CrawlReport) (domain : String) :
    ClientState :=
  { s with resultReport := some (report, domain), resultError := none,
           resultHidden := false }

/-- `showError(message)`: fills the result section with the error banner
and unhides it. -/
def showError (s : ClientState) (message : String) : ClientState :=
  { s with resultError := some message, resultReport := none,
           resultHidden := false }

/-- `startCrawling(url, maxDepth)`: shows the loading state, posts
`{url, max_depth}`, dispatches on `data.success` (or catches a thrown
error), and in the `finally` block resets the button and hides the
loading section. Returns the request body it sent together with the
final client state. -/
def startCrawling (s : ClientState) (url : String) (maxDepth : Int)
    (outcome : FetchOutcome) : CrawlRequestBody × ClientState :=
  let loading : ClientState :=
    { s with crawlBtnDisabled := true, crawlBtnText := "Crawling...",
             loadingHidden := false, resultHidden := true }
  let body : CrawlRequestBody := { url := url, max_depth := maxDepth }
  let afterTry : ClientState :=
    match outcome with
    | .response (.ok report domain) => displayResults loading report domain
    | .response (.err error) => showError loading error
    | .networkError message => showError loading ("Network error: " ++ message)
  let final : ClientState :=
    { afterTry with crawlBtnDisabled := false,
                    crawlBtnText := "Start Deep Crawl",
                    loadingHidden := true }
  (body, final)

/-- The JS `String.prototype.trim()`: strip whitespace from both ends. -/
def trimString (s : String) : String :=
  String.mk (((s.toList.dropWhile Char.isWhitespace).reverse.dropWhile
    Char.isWhitespace).reverse)

/-- What one submit of `crawlForm` amounts to: either an alert with no
request sent and no crawl started, or a crawl whose request body and
final client state are those of `startCrawling`. -/
inductive SubmitAction where
  | alerted (message : String)
  | crawled (body : CrawlRequestBody) (state : ClientState)
deriving Repr, DecidableEq

/-- The `crawlForm` submit handler: trim the input, alert when it is
empty, alert when `new URL(url)` throws (modelled by `parseURL` on the
trimmed input), and otherwise run `startCrawling`. -/
def submitHandler (s : ClientState) (rawInput : String) (maxDepth : Int)
    (outcome : FetchOutcome) : SubmitAction :=
  let url := trimString rawInput
  if url.isEmpty then .alerted "Please enter a website URL"
  else
    match parseURL url.toList with
    | none => .alerted "Please enter a valid URL (include http:// or https://)"
    | some _ =>
      let r := startCrawling s url maxDepth outcome
      .crawled r.1 r.2

/-- What `createPageItem(page)` puts into the page item markup. -/
structure RenderedPage where
  titleText : String
  url : String
  statLinks : Nat
  statImages : Nat
  statTables : Nat
  statWords : Nat
  previewParagraphs : List String
  linksHeaderCount : Nat
  shownLinks : List LinkItem
  moreLinksNote : Option Nat
  imagesHeaderCount : Nat
  shownImages : List ImageItem
  moreImagesNote : Option Nat
deriving Repr, DecidableEq

/-- `createPageItem(page)`: the stats line uses the page's own counters,
the content preview shows `paragraphs.slice(0, 3)`, the link list shows
`links.slice(0, 5)` (with a "... and N more links" note past 5), and the
image list shows `images.slice(0, 3)` (with the analogous note). -/
def createPageItem (page : PageRecord) : RenderedPage :=
  { titleText := page.title
    url := page.url
    statLinks := page.links_found
    statImages := page.images_found
    statTables := page.tables_found
    statWords := page.text_content.total_word_count
    previewParagraphs := page.text_content.paragraphs.take 3
    linksHeaderCount := page.links.length
    shownLinks := page.links.take 5
    moreLinksNote :=
      if page.links.length > 5 then some (page.links.length - 5) else none
    imagesHeaderCount := page.images.length
    shownImages := page.images.take 3
    moreImagesNote :=
      if page.images.length > 3 then some (page.images.length - 3) else none }

/-- The JSON body `{domain, report: window.currentReport}` that
`downloadReport(domain)` posts to `/download-report`; `report` is
whatever `window.currentReport` holds at click time. -/
structure DownloadRequestBody where
  domain : String
  report : Option CrawlReport
deriving Repr, DecidableEq

/-- `downloadReport(domain)`: the request body it sends, read off the
current client state. -/
def downloadRequest (s : ClientState) (domain : String) : DownloadRequestBody :=
  { domain := domain, report := s.currentReport }

/-- The `a.download` attribute set by `downloadReport(domain)`. -/
def downloadFileName (domain : String) : String :=
  "crawl_report_" ++ domain ++ ".json"

/-! ## Concrete demonstration inputs -/

/-- A one-paragraph page on `a.com` linking to `/b`. -/
def demoPageA : PageRecord :=
  { url := "http://a.com", title := "A",
    links_found := 1, images_found := 0, tables_found := 0,
    text_content := { paragraphs := ["hello world"], total_word_count := 2 },
    links := [{ text := "to b", url := "/b" }], images := [] }

/-- A leaf page on `a.com` with no links. -/
def demoPageB : PageRecord :=
  { url := "http://a.com/b", title := "B",
    links_found := 0, images_found := 0, tables_found := 0,
    text_content := { paragraphs := ["bye"], total_word_count := 1 },
    links := [], images := [] }

/-- A two-page website: the seed `http://a.com` and its child
`http://a.com/b`. -/
def demoWeb : Web := fun u =>
  if u = "http://a.com" then some demoPageA
  else if u = "http://a.com/b" then some demoPageB
  else none

/-- The crawl state `runCrawl` reaches on `demoWeb` from seed
`HTTP://A.com/` at `max_depth = 1`. -/
def demoCrawlState : CrawlState :=
  (runCrawl demoWeb "HTTP://A.com/" 1 10).getD ⟨[], [], [], []⟩

/-- A tiny finalized report used to exercise the client embedding. -/
def demoReport : CrawlReport :=
  finalizeReport 1 [("http://a.com", demoPageA), ("http://a.com/b", demoPageB)]

/-! ## Aggregation lemmas -/

theorem foldl_recordPage_pages (pages : List (String × PageRecord))
    (init : CrawlSummary) :
    (pages.foldl (fun s pr => recordPage s pr.2) init).total_pages_crawled =
      init.total_pages_crawled + pages.length := by
  induction pages generalizing init with
  | nil => simp
  | cons p t ih => rw [List.foldl_cons, ih]; simp [recordPage]; omega

theorem foldl_recordPage_words (pages : List (String × PageRecord))
    (init : CrawlSummary) :
    (pages.foldl (fun s pr => recordPage s pr.2) init).total_words_extracted =
      init.total_words_extracted +
        (pages.map (fun pr => pr.2.text_content.total_word_count)).sum := by
  induction pages generalizing init with
  | nil => simp
  | cons p t ih => rw [List.foldl_cons, ih]; simp [recordPage]; omega

/-- C2: at every point after the report is finalized, the summary field
`total_pages_crawled` equals the number of entries in the
`detailed_pages` mapping of the same report. -/
theorem finalizeReport_pages_count (duration : Rat)
    (pages : List (String × PageRecord)) :
    (finalizeReport duration pages).crawl_summary.total_pages_crawled =
      (finalizeReport duration pages).detailed_pages.length := by
  simp [finalizeReport, foldl_recordPage_pages, initialSummary]

/-- C3: for every finalized report, the summary field
`total_words_extracted` equals the sum over all pages in
`detailed_pages` of that page's `text_content.total_word_count`. -/
theorem finalizeReport_words_sum (duration : Rat)
    (pages : List (String × PageRecord)) :
    (finalizeReport duration pages).crawl_summary.total_words_extracted =
      ((finalizeReport duration pages).detailed_pages.map
        (fun pr => pr.2.text_content.total_word_count)).sum := by
  simp [finalizeReport, foldl_recordPage_words, initialSummary]

/-! ## Client-side theorems -/

/-- C9: after every invocation of `startCrawling` — server success,
server failure, or a thrown network error — the crawl button ends
re-enabled with text "Start Deep Crawl" and the loading section ends
hidden. -/
theorem startCrawling_resets_ui (s : ClientState) (url : String) (d : Int)
    (outcome : FetchOutcome) :
    (startCrawling s url d outcome).2.crawlBtnDisabled = false ∧
    (startCrawling s url d outcome).2.crawlBtnText = "Start Deep Crawl" ∧
    (startCrawling s url d outcome).2.loadingHidden = true := by
  cases outcome with
  | response r => cases r <;> simp [startCrawling, displayResults, showError]
  | networkError m => simp [startCrawling, showError]

/-- C7: every crawl the client starts posts exactly
`{url: string, max_depth: integer}`; a `{success: true, report, domain}`
response is displayed via `displayResults(report, domain)` and a
`{success: false, error}` response (or a thrown fetch error) via
`showError`. -/
theorem startCrawling_protocol (s : ClientState) (url : String) (d : Int)
    (outcome : FetchOutcome) :
    (startCrawling s url d outcome).1 = { url := url, max_depth := d } ∧
    (∀ report domain, outcome = .response (.ok report domain) →
      (startCrawling s url d outcome).2.resultReport = some (report, domain) ∧
      (startCrawling s url d outcome).2.resultError = none) ∧
    (∀ error, outcome = .response (.err error) →
      (startCrawling s url d outcome).2.resultError = some error) ∧
    (∀ msg, outcome = .networkError msg →
      (startCrawling s url d outcome).2.resultError =
        some ("Network error: " ++ msg)) := by
  refine ⟨rfl, ?_, ?_, ?_⟩
  · rintro report domain rfl
    exact ⟨rfl, rfl⟩
  · rintro error rfl
    rfl
  · rintro msg rfl
    rfl

theorem startCrawling_protocol_witness :
    (startCrawling initialClientState "http://a.com" 2
        (.response (.ok demoReport "a.com"))).1 =
      { url := "http://a.com", max_depth := 2 } ∧
    (startCrawling initialClientState "http://a.com" 2
        (.response (.ok demoReport "a.com"))).2.resultReport =
      some (demoReport, "a.com") :=
  ⟨(startCrawling_protocol initialClientState "http://a.com" 2
      (.response (.ok demoReport "a.com"))).1,
   ((startCrawling_protocol initialClientState "http://a.com" 2
      (.response (.ok demoReport "a.com"))).2.1 demoReport "a.com" rfl).1⟩

/-- C8: whenever the trimmed URL input is empty or does not parse as a
URL, the submit handler only alerts: it sends no HTTP request and never
starts a crawl. -/
theorem submitHandler_invalid_input_only_alerts (s : ClientState)
    (rawInput : String) (d : Int) (outcome : FetchOutcome)
    (h : (trimString rawInput).isEmpty = true ∨ parseURL (trimString rawInput).toList = none) :
    ∃ msg, submitHandler s rawInput d outcome = .alerted msg := by
  unfold submitHandler
  rcases h with h | h
  · rw [if_pos h]
    exact ⟨_, rfl⟩
  · by_cases he : (trimString rawInput).isEmpty
    · rw [if_pos he]
      exact ⟨_, rfl⟩
    · rw [if_neg he, h]
      exact ⟨_, rfl⟩

theorem submitHandler_invalid_input_only_alerts_witness :
    ((trimString "not a url").isEmpty = true ∨ parseURL (trimString "not a url").toList = none) ∧
    ∃ msg, submitHandler initialClientState "not a url" 2 (.networkError "x") =
      .alerted msg :=
  ⟨Or.inr (by decide),
   submitHandler_invalid_input_only_alerts initialClientState "not a url" 2
     (.networkError "x") (Or.inr (by decide))⟩

/-- C10: the detailed view of a rendered page shows at most the first 3
paragraphs, at most the first 5 links and at most the first 3 images,
while the displayed `links_found`, `images_found` and word-count numbers
reflect the full untruncated page data. -/
theorem createPageItem_truncation (page : PageRecord) :
    (createPageItem page).previewParagraphs =
        page.text_content.paragraphs.take 3 ∧
    (createPageItem page).previewParagraphs.length ≤ 3 ∧
    (createPageItem page).shownLinks = page.links.take 5 ∧
    (createPageItem page).shownLinks.length ≤ 5 ∧
    (createPageItem page).shownImages = page.images.take 3 ∧
    (createPageItem page).shownImages.length ≤ 3 ∧
    (createPageItem page).statLinks = page.links_found ∧
    (createPageItem page).statImages = page.images_found ∧
    (createPageItem page).statWords = page.text_content.total_word_count ∧
    (createPageItem page).linksHeaderCount = page.links.length ∧
    (createPageItem page).imagesHeaderCount = page.images.length := by
  refine ⟨rfl, ?_, rfl, ?_, rfl, ?_, rfl, rfl, rfl, rfl, rfl⟩ <;>
    simp [createPageItem, List.length_take]

/-- C6 (counter-evidence): after a successful crawl is displayed, the
download request still carries `window.currentReport`, which the script
never assigns; the posted body therefore holds no report, while the
result section does show one — only the `crawl_report_<domain>.json`
file name matches the claim. -/
theorem downloadReport_body_missing_displayed_report :
    downloadFileName "a.com" = "crawl_report_a.com.json" ∧
    (startCrawling initialClientState "http://a.com" 1
        (.response (.ok demoReport "a.com"))).2.resultReport =
      some (demoReport, "a.com") ∧
    (downloadRequest
        (startCrawling initialClientState "http://a.com" 1
          (.response (.ok demoReport "a.com"))).2 "a.com").report = none :=
  ⟨rfl, rfl, rfl⟩

/-! ## Crawl traversal invariants -/

theorem reachWithin_mono (web : Web) (seed : String) :
    ∀ {u : String} {m : Nat}, ReachWithin web seed u m →
      ∀ {n : Nat}, m ≤ n → ReachWithin web seed u n := by
  intro u m h
  induction h with
  | seed _ => intro n _; exact .seed n
  | step h1 h2 h3 h4 ih =>
    intro n hn
    cases n with
    | zero => exact absurd hn (by omega)
    | succ k => exact .step (ih (by omega)) h2 h3 h4

theorem tryEnqueue_inv {web : Web} {seed : String} {d : Nat}
    (sh : Option (List Char)) {base : String} {fromDepth : Nat}
    {page : PageRecord} (st : CrawlState) (link : LinkItem)
    (hbase : ReachWithin web seed base fromDepth)
    (hpage : web base = some page) (hlink : link ∈ page.links)
    (hinv : CrawlInv web seed d st) :
    CrawlInv web seed d (tryEnqueue d sh base fromDepth st link) := by
  unfold tryEnqueue
  cases hres : resolveAndNormalize base link.url with
  | none => exact hinv
  | some v =>
    dsimp only
    by_cases h1 : fromDepth + 1 > d
    · rw [if_pos h1]; exact hinv
    rw [if_neg h1]
    by_cases h2 : v ∈ st.visited
    · rw [if_pos h2]; exact hinv
    rw [if_neg h2]
    by_cases h3 : hostOf v ≠ sh
    · rw [if_pos h3]; exact hinv
    rw [if_neg h3]
    obtain ⟨hq, hp, hc⟩ := hinv
    have hdep : fromDepth + 1 ≤ d := by omega
    have hv : ReachWithin web seed v (fromDepth + 1) :=
      .step hbase hpage hlink hres
    refine ⟨?_, hp, ?_⟩
    · intro e he
      rcases List.mem_append.1 he with he | he
      · exact hq e he
      · rw [List.mem_singleton] at he
        subst he
        exact ⟨hv, hdep⟩
    · intro e he
      rcases List.mem_append.1 he with he | he
      · exact hc e he
      · rw [List.mem_singleton] at he
        subst he
        exact hdep

theorem foldl_tryEnqueue_inv {web : Web} {seed : String} {d : Nat}
    (sh : Option (List Char)) {base : String} {fromDepth : Nat}
    {page : PageRecord}
    (hbase : ReachWithin web seed base fromDepth)
    (hpage : web base = some page) :
    ∀ (links : List LinkItem), (∀ l ∈ links, l ∈ page.links) →
      ∀ st : CrawlState, CrawlInv web seed d st →
        CrawlInv web seed d (links.foldl (tryEnqueue d sh base fromDepth) st) := by
  intro links
  induction links with
  | nil => intro _ st h; exact h
  | cons l t ih =>
    intro hmem st h
    rw [List.foldl_cons]
    exact ih (fun x hx => hmem x (List.mem_cons_of_mem _ hx)) _
      (tryEnqueue_inv sh st l hbase hpage (hmem l (List.mem_cons_self _ _)) h)

theorem crawlStep_inv {web : Web} {seed : String} {d : Nat}
    {sh : Option (List Char)} {st : CrawlState}
    (h : CrawlInv web seed d st) :
    CrawlInv web seed d (crawlStep web d sh st) := by
  unfold crawlStep
  cases hq : st.queue with
  | nil => exact h
  | cons e rest =>
    dsimp only
    obtain ⟨hqi, hp, hc⟩ := h
    have he : ReachWithin web seed e.url e.depth ∧ e.depth ≤ d :=
      hqi e (by rw [hq]; exact List.mem_cons_self _ _)
    have hrest : ∀ x ∈ rest, ReachWithin web seed x.url x.depth ∧ x.depth ≤ d :=
      fun x hx => hqi x (by rw [hq]; exact List.mem_cons_of_mem _ hx)
    cases hw : web e.url with
    | none => exact ⟨hrest, hp, hc⟩
    | some page =>
      dsimp only
      apply foldl_tryEnqueue_inv sh he.1 hw page.links (fun _ hx => hx)
      refine ⟨hrest, ?_, hc⟩
      intro pr hpr
      rcases List.mem_append.1 hpr with hpr | hpr
      · exact hp pr hpr
      · rw [List.mem_singleton] at hpr
        subst hpr
        exact reachWithin_mono web seed he.1 he.2

theorem crawlLoop_inv {web : Web} {seed : String} {d : Nat}
    {sh : Option (List Char)} :
    ∀ (fuel : Nat) (st : CrawlState), CrawlInv web seed d st →
      CrawlInv web seed d (crawlLoop web d sh fuel st) := by
  intro fuel
  induction fuel with
  | zero => intro st h; exact h
  | succ k ih =>
    intro st h
    unfold crawlLoop
    split
    · exact h
    · exact ih _ (crawlStep_inv h)

/-- C1: for every crawl with `max_depth = d`, no `FrontierEntry` with
depth greater than `d` is ever created, and the collected pages mapping
contains only pages reachable within `d` hops from the (normalized)
seed. -/
theorem crawl_depth_bounded_and_pages_reachable (web : Web) (seedURL : String)
    (d fuel : Nat) (s : String) (st : CrawlState)
    (hs : normalizeURL seedURL = some s)
    (hrun : runCrawl web seedURL d fuel = some st) :
    (∀ e ∈ st.created, e.depth ≤ d) ∧
    (∀ pr ∈ st.pages, ReachWithin web s pr.1 d) := by
  unfold runCrawl at hrun
  rw [hs] at hrun
  dsimp only at hrun
  have h0 : CrawlInv web s d
      { queue := [{ url := s, depth := 0 }], visited := [s], pages := [],
        created := [{ url := s, depth := 0 }] } := by
    refine ⟨?_, ?_, ?_⟩
    · intro e he
      rw [List.mem_singleton] at he
      subst he
      exact ⟨.seed 0, Nat.zero_le d⟩
    · intro pr hpr
      simp at hpr
    · intro e he
      rw [List.mem_singleton] at he
      subst he
      exact Nat.zero_le d
  have hloop := @crawlLoop_inv web s d (hostOf s) fuel _ h0
  injection hrun with hrun
  subst hrun
  exact ⟨hloop.2.2, hloop.2.1⟩

theorem crawl_depth_bounded_and_pages_reachable_witness :
    (∀ e ∈ demoCrawlState.created, e.depth ≤ 1) ∧
    (∀ pr ∈ demoCrawlState.pages, ReachWithin demoWeb "http://a.com" pr.1 1) :=
  crawl_depth_bounded_and_pages_reachable demoWeb "HTTP://A.com/" 1 10
    "http://a.com" demoCrawlState (by decide) (by decide)

/-! ## Endpoint error handling -/

/-- C5: for every request whose seed URL string cannot be parsed as a
URL, the endpoint's response is the failure shape
`{success: false, error}` and no report — not even a partial one — is
produced. -/
theorem invalid_seed_yields_error_and_no_report (web : Web) (fuel : Nat)
    (duration : Rat) (req : CrawlRequest)
    (h : parseURL req.url.toList = none) :
    handleCrawlRequest web fuel duration req =
      .err ("Invalid seed URL: " ++ req.url) ∧
    ∀ report domain, handleCrawlRequest web fuel duration req ≠
      .ok report domain := by
  have hn : normalizeURL req.url = none := by
    unfold normalizeURL
    rw [h]
  have hr : runCrawl web req.url req.max_depth fuel = none := by
    unfold runCrawl
    rw [hn]
  have hmain : handleCrawlRequest web fuel duration req =
      .err ("Invalid seed URL: " ++ req.url) := by
    unfold handleCrawlRequest
    rw [hr]
  refine ⟨hmain, ?_⟩
  intro report domain hcontra
  rw [hmain] at hcontra
  exact EndpointResponse.noConfusion hcontra

theorem invalid_seed_yields_error_and_no_report_witness :
    parseURL ("not a url").toList = none ∧
    handleCrawlRequest demoWeb 10 1 { url := "not a url", max_depth := 2 } =
      .err ("Invalid seed URL: " ++ "not a url") :=
  ⟨by decide,
   (invalid_seed_yields_error_and_no_report demoWeb 10 1
     { url := "not a url", max_depth := 2 } (by decide)).1⟩

/-! ## Character and list lemmas for the normalizer -/

theorem char_toNat_ofNat {n : Nat} (h : n.isValidChar) :
    (Char.ofNat n).toNat = n := by
  unfold Char.ofNat
  rw [dif_pos h]
  rfl

theorem lowerChar_toNat (c : Char) :
    (lowerChar c).toNat =
      if 65 ≤ c.toNat ∧ c.toNat ≤ 90 then c.toNat + 32 else c.toNat := by
  by_cases h : 65 ≤ c.toNat ∧ c.toNat ≤ 90
  · rw [lowerChar, if_pos h, if_pos h]
    exact char_toNat_ofNat (Or.inl (by omega))
  · rw [lowerChar, if_neg h, if_neg h]

theorem lowerChar_eq_self {c : Char} (h : ¬ (65 ≤ c.toNat ∧ c.toNat ≤ 90)) :
    lowerChar c = c := by
  rw [lowerChar, if_neg h]

theorem lowerChar_idem (c : Char) : lowerChar (lowerChar c) = lowerChar c := by
  apply lowerChar_eq_self
  rw [lowerChar_toNat]
  split <;> omega

theorem map_lowerChar_idem (l : List Char) :
    (l.map lowerChar).map lowerChar = l.map lowerChar := by
  rw [List.map_map]
  exact List.map_congr_left (fun a _ => lowerChar_idem a)

theorem lowerChar_ne_delim {c d : Char} (hd : ¬ (97 ≤ d.toNat ∧ d.toNat ≤ 122))
    (h : c ≠ d) : lowerChar c ≠ d := by
  rw [lowerChar]
  split
  · rename_i hc
    intro heq
    have ht := congrArg Char.toNat heq
    rw [char_toNat_ofNat (Or.inl (by omega))] at ht
    omega
  · exact h

theorem takeWhile_append_cons {α : Type} (p : α → Bool) (xs : List α) (y : α)
    (ys : List α) (hx : ∀ x ∈ xs, p x = true) (hy : p y = false) :
    (xs ++ y :: ys).takeWhile p = xs := by
  induction xs with
  | nil => simp [List.takeWhile_cons, hy]
  | cons a t ih =>
    have ha := hx a (List.mem_cons_self a t)
    simp [List.takeWhile_cons, ha,
      ih (fun x hx2 => hx x (List.mem_cons_of_mem _ hx2))]

theorem dropWhile_append_cons {α : Type} (p : α → Bool) (xs : List α) (y : α)
    (ys : List α) (hx : ∀ x ∈ xs, p x = true) (hy : p y = false) :
    (xs ++ y :: ys).dropWhile p = y :: ys := by
  induction xs with
  | nil => simp [List.dropWhile_cons, hy]
  | cons a t ih =>
    have ha := hx a (List.mem_cons_self a t)
    simp [List.dropWhile_cons, ha,
      ih (fun x hx2 => hx x (List.mem_cons_of_mem _ hx2))]

theorem takeWhile_head?_eq {α : Type} {p : α → Bool} {l : List α} {c : α}
    (h : (l.takeWhile p).head? = some c) : l.head? = some c ∧ p c = true := by
  cases l with
  | nil => simp at h
  | cons a t =>
    rw [List.takeWhile_cons] at h
    by_cases hp : p a
    · simp [hp] at h
      subst h
      exact ⟨rfl, hp⟩
    · simp [hp] at h

theorem dropWhile_head?_false {α : Type} {p : α → Bool} {l : List α} {c : α}
    (h : (l.dropWhile p).head? = some c) : p c = false := by
  induction l with
  | nil => simp at h
  | cons a t ih =>
    rw [List.dropWhile_cons] at h
    by_cases hp : p a
    · simp [hp] at h
      exact ih h
    · simp [hp] at h
      subst h
      simp [hp]

theorem dropWhile_dropWhile_self {α : Type} (p : α → Bool) (l : List α) :
    (l.dropWhile p).dropWhile p = l.dropWhile p := by
  cases h : l.dropWhile p with
  | nil => simp
  | cons a t =>
    have ha : p a = false := by
      apply dropWhile_head?_false (l := l)
      rw [h]
      rfl
    simp [List.dropWhile_cons, ha]

theorem stripTrailingSlash_idem (p : List Char) :
    stripTrailingSlash (stripTrailingSlash p) = stripTrailingSlash p := by
  unfold stripTrailingSlash
  rw [List.reverse_reverse, dropWhile_dropWhile_self]

theorem stripTrailingSlash_isPrefixOf (p : List Char) :
    stripTrailingSlash p <+: p := by
  have h := List.dropWhile_suffix (l := p.reverse) (fun c => c == '/')
  have h2 := List.reverse_prefix.2 h
  rwa [List.reverse_reverse] at h2

theorem mem_stripTrailingSlash {p : List Char} {c : Char}
    (h : c ∈ stripTrailingSlash p) : c ∈ p :=
  (stripTrailingSlash_isPrefixOf p).subset h

theorem stripTrailingSlash_head? {p : List Char} {c : Char}
    (h : (stripTrailingSlash p).head? = some c) : p.head? = some c := by
  obtain ⟨t, ht⟩ := stripTrailingSlash_isPrefixOf p
  cases hs : stripTrailingSlash p with
  | nil => rw [hs] at h; simp at h
  | cons a r =>
    rw [hs] at h ht
    simp at h
    subst h
    rw [← ht]
    rfl

theorem mem_of_mem_takeWhile {α : Type} {p : α → Bool} {l : List α} {x : α}
    (h : x ∈ l.takeWhile p) : x ∈ l := by
  induction l with
  | nil => simp at h
  | cons a t ih =>
    rw [List.takeWhile_cons] at h
    by_cases hp : p a
    · simp [hp] at h
      rcases h with rfl | h
      · exact List.mem_cons_self _ _
      · exact List.mem_cons_of_mem _ (ih h)
    · simp [hp] at h

/-! ## Parser invariants -/

theorem parse_inv {cs : List Char} {p : URLParts} (h : parseURL cs = some p) :
    PartsInv p := by
  unfold parseURL at h
  dsimp only at h
  split at h
  · exact absurd h (by simp)
  · split at h
    · exact absurd h (by simp)
    · rename_i hG1 hG2
      rw [not_or] at hG2
      split at h
      · injection h with h
        subst h
        refine ⟨hG2.1, ?_, hG2.2, ?_, ?_, ?_, ?_⟩
        · intro c hc
          have := List.mem_takeWhile_imp hc
          simpa using this
        · intro c hc
          have h1 := List.mem_takeWhile_imp hc
          have h2 := List.mem_takeWhile_imp (mem_of_mem_takeWhile hc)
          simp at h1 h2
          exact ⟨h1, h2.1.1, h2.1.2, h2.2⟩
        · intro ds hds
          exact absurd hds (by simp)
        · intro c hc
          have := List.mem_takeWhile_imp hc
          simpa using this
        · intro c hc
          obtain ⟨hc1, hc2⟩ := takeWhile_head?_eq hc
          have hc3 := dropWhile_head?_false hc1
          simp at hc2 hc3
          by_cases h3 : c = '/'
          · exact Or.inl h3
          by_cases h4 : c = '?'
          · exact Or.inr h4
          exact absurd (hc3 h3 h4) hc2
      · split at h
        · exact absurd h (by simp)
        · rename_i hPort hDs
          rw [not_or, not_not] at hDs
          injection h with h
          subst h
          refine ⟨hG2.1, ?_, hG2.2, ?_, ?_, ?_, ?_⟩
          · intro c hc
            have := List.mem_takeWhile_imp hc
            simpa using this
          · intro c hc
            have h1 := List.mem_takeWhile_imp hc
            have h2 := List.mem_takeWhile_imp (mem_of_mem_takeWhile hc)
            simp at h1 h2
            exact ⟨h1, h2.1.1, h2.1.2, h2.2⟩
          · intro ds hds
            injection hds with hds
            subst hds
            refine ⟨hDs.1, ?_⟩
            intro c hc
            exact List.all_eq_true.1 hDs.2 c hc
          · intro c hc
            have := List.mem_takeWhile_imp hc
            simpa using this
          · intro c hc
            obtain ⟨hc1, hc2⟩ := takeWhile_head?_eq hc
            have hc3 := dropWhile_head?_false hc1
            simp at hc2 hc3
            by_cases h3 : c = '/'
            · exact Or.inl h3
            by_cases h4 : c = '?'
            · exact Or.inr h4
            exact absurd (hc3 h3 h4) hc2

theorem canon_inv {p : URLParts} (h : PartsInv p) : PartsInv (canonParts p) := by
  obtain ⟨s_ne, s_nc, h_ne, h_ok, po, pa, ph⟩ := h
  refine ⟨?_, ?_, ?_, ?_, ?_, ?_, ?_⟩
  · show p.scheme.map lowerChar ≠ []
    simpa [List.map_eq_nil_iff] using s_ne
  · show ∀ c ∈ p.scheme.map lowerChar, c ≠ ':'
    intro c hc
    obtain ⟨a, ha, rfl⟩ := List.mem_map.1 hc
    exact lowerChar_ne_delim (by decide) (s_nc a ha)
  · show p.host.map lowerChar ≠ []
    simpa [List.map_eq_nil_iff] using h_ne
  · intro c hc
    obtain ⟨a, ha, rfl⟩ := List.mem_map.1 hc
    obtain ⟨k1, k2, k3, k4⟩ := h_ok a ha
    exact ⟨lowerChar_ne_delim (by decide) k1, lowerChar_ne_delim (by decide) k2,
      lowerChar_ne_delim (by decide) k3, lowerChar_ne_delim (by decide) k4⟩
  · intro ds hds
    revert hds
    show (match p.port with
      | none => none
      | some ds0 =>
        if (p.scheme.map lowerChar = "http".toList ∧ ds0 = "80".toList) ∨
            (p.scheme.map lowerChar = "https".toList ∧ ds0 = "443".toList)
        then none else some ds0) = some ds → _
    cases hp0 : p.port with
    | none => intro hds; exact absurd hds (by simp)
    | some ds0 =>
      dsimp only
      intro hds
      split at hds
      · exact absurd hds (by simp)
      · injection hds with hds
        subst hds
        exact po ds0 hp0
  · intro c hc
    exact pa c (mem_stripTrailingSlash hc)
  · intro c hc
    exact ph c (stripTrailingSlash_head? hc)

theorem canon_canon (p : URLParts) : canonParts (canonParts p) = canonParts p := by
  cases hp : p.port with
  | none =>
    unfold canonParts
    rw [hp]
    dsimp only
    rw [map_lowerChar_idem, map_lowerChar_idem, stripTrailingSlash_idem]
  | some ds =>
    unfold canonParts
    rw [hp]
    dsimp only
    by_cases hcond : (p.scheme.map lowerChar = "http".toList ∧ ds = "80".toList) ∨
        (p.scheme.map lowerChar = "https".toList ∧ ds = "443".toList)
    · rw [if_pos hcond]
      dsimp only
      rw [map_lowerChar_idem, map_lowerChar_idem, stripTrailingSlash_idem]
    · rw [if_neg hcond]
      dsimp only
      rw [map_lowerChar_idem, map_lowerChar_idem, stripTrailingSlash_idem,
        if_neg hcond]

theorem path_split {xs path : List Char}
    (hxs : ∀ x ∈ xs, (fun c => c != '/' && c != '?' && c != '#') x = true)
    (hhead : ∀ c, path.head? = some c → c = '/' ∨ c = '?') :
    (xs ++ path).takeWhile (fun c => c != '/' && c != '?' && c != '#') = xs ∧
    (xs ++ path).dropWhile (fun c => c != '/' && c != '?' && c != '#') = path := by
  cases path with
  | nil =>
    rw [List.append_nil]
    refine ⟨List.takeWhile_eq_self_iff.2 (fun x hx => by simpa using hxs x hx), ?_⟩
    rw [List.dropWhile_eq_nil_iff]
    intro x hx
    simpa using hxs x hx
  | cons c t =>
    have hc := hhead c rfl
    have hstop : (fun c => c != '/' && c != '?' && c != '#') c = false := by
      rcases hc with rfl | rfl <;> rfl
    exact ⟨takeWhile_append_cons _ _ _ _ hxs hstop,
      dropWhile_append_cons _ _ _ _ hxs hstop⟩

theorem parse_serialize {q : URLParts} (hq : PartsInv q) (hf : q.fragment = none) :
    parseURL (serializeParts q) = some q := by
  obtain ⟨qs, qh, qp, qpa, qf⟩ := q
  obtain ⟨s_ne, s_nc, h_ne, h_ok, po, pa, ph⟩ := hq
  simp only at s_ne s_nc h_ne h_ok po pa ph hf
  subst hf
  have hs1 : ∀ x ∈ qs, (fun c => c != ':') x = true := by
    intro x hx
    simpa using s_nc x hx
  have hhost_stop : ∀ x ∈ qh, (fun c => c != '/' && c != '?' && c != '#') x = true := by
    intro x hx
    obtain ⟨k1, k2, k3, k4⟩ := h_ok x hx
    simp [k2, k3, k4]
  have hhost_colon : ∀ x ∈ qh, (fun c => c != ':') x = true := by
    intro x hx
    simpa using (h_ok x hx).1
  have hpath_take : qpa.takeWhile (fun c => c != '#') = qpa :=
    List.takeWhile_eq_self_iff.2 (fun x hx => by simpa using pa x hx)
  have hpath_drop : qpa.dropWhile (fun c => c != '#') = [] :=
    List.dropWhile_eq_nil_iff.2 (fun x hx => by simpa using pa x hx)
  cases qp with
  | none =>
    have hser : serializeParts ⟨qs, qh, none, qpa, none⟩ =
        qs ++ ':' :: '/' :: '/' :: (qh ++ qpa) := by
      unfold serializeParts
      simp
    rw [hser]
    unfold parseURL
    dsimp only
    rw [takeWhile_append_cons (fun c => c != ':') qs ':' ('/' :: '/' :: (qh ++ qpa))
        hs1 (by decide),
      dropWhile_append_cons (fun c => c != ':') qs ':' ('/' :: '/' :: (qh ++ qpa))
        hs1 (by decide)]
    obtain ⟨hA, hT⟩ := path_split hhost_stop ph
    rw [List.take_succ_cons, List.take_succ_cons, List.take_succ_cons,
      List.take_zero, if_neg (by simp), List.drop_succ_cons, List.drop_succ_cons,
      List.drop_succ_cons, List.drop_zero, hA, hT,
      List.takeWhile_eq_self_iff.2 (fun x hx => by simpa using (h_ok x hx).1),
      List.dropWhile_eq_nil_iff.2 (fun x hx => by simpa using (h_ok x hx).1),
      hpath_take, hpath_drop]
    rw [if_neg (by simp [s_ne, h_ne]), if_pos rfl]
    simp
  | some ds =>
    obtain ⟨ds_ne, ds_digit⟩ := po ds rfl
    have hxs2 : ∀ x ∈ qh ++ ':' :: ds,
        (fun c => c != '/' && c != '?' && c != '#') x = true := by
      intro x hx
      rcases List.mem_append.1 hx with hx | hx
      · exact hhost_stop x hx
      · rcases List.mem_cons.1 hx with rfl | hx
        · rfl
        · have hd := ds_digit x hx
          have k2 : x ≠ '/' := by rintro rfl; exact absurd hd (by decide)
          have k3 : x ≠ '?' := by rintro rfl; exact absurd hd (by decide)
          have k4 : x ≠ '#' := by rintro rfl; exact absurd hd (by decide)
          simp [k2, k3, k4]
    have hser : serializeParts ⟨qs, qh, some ds, qpa, none⟩ =
        qs ++ ':' :: '/' :: '/' :: ((qh ++ ':' :: ds) ++ qpa) := by
      unfold serializeParts
      simp
    rw [hser]
    unfold parseURL
    dsimp only
    rw [takeWhile_append_cons (fun c => c != ':') qs ':'
        ('/' :: '/' :: ((qh ++ ':' :: ds) ++ qpa)) hs1 (by decide),
      dropWhile_append_cons (fun c => c != ':') qs ':'
        ('/' :: '/' :: ((qh ++ ':' :: ds) ++ qpa)) hs1 (by decide)]
    obtain ⟨hA, hT⟩ := path_split hxs2 ph
    rw [List.take_succ_cons, List.take_succ_cons, List.take_succ_cons,
      List.take_zero, if_neg (by simp), List.drop_succ_cons, List.drop_succ_cons,
      List.drop_succ_cons, List.drop_zero, hA, hT,
      takeWhile_append_cons (fun c => c != ':') qh ':' ds hhost_colon (by decide),
      dropWhile_append_cons (fun c => c != ':') qh ':' ds hhost_colon (by decide),
      hpath_take, hpath_drop]
    rw [if_neg (by simp [s_ne, h_ne]), if_neg (by simp), List.drop_succ_cons,
      List.drop_zero]
    rw [if_neg (by
      rw [not_or, not_not]
      exact ⟨ds_ne, List.all_eq_true.2 (fun x hx => ds_digit x hx)⟩)]
    simp

/-- C4: URL normalization is idempotent — whenever the normalizer
accepts `u` and yields `v`, normalizing `v` yields `v` again. -/
theorem normalizeURL_idempotent (u v : String) (h : normalizeURL u = some v) :
    normalizeURL v = some v := by
  unfold normalizeURL at h ⊢
  cases hp : parseURL u.toList with
  | none =>
    rw [hp] at h
    exact absurd h (by simp)
  | some p =>
    rw [hp] at h
    dsimp only at h
    by_cases hsch : (canonParts p).scheme = "http".toList ∨
        (canonParts p).scheme = "https".toList
    · rw [if_pos hsch] at h
      injection h with h
      subst h
      have hinv := canon_inv (parse_inv hp)
      have hfrag : (canonParts p).fragment = none := rfl
      have hps : parseURL (String.mk (serializeParts (canonParts p))).toList =
          some (canonParts p) := parse_serialize hinv hfrag
      rw [hps]
      dsimp only
      rw [canon_canon, if_pos hsch]
    · rw [if_neg hsch] at h
      exact absurd h (by simp)

theorem normalizeURL_idempotent_witness :
    normalizeURL "HTTP://Example.COM:80/Path/#frag" = some "http://example.com/Path" ∧
    normalizeURL "http://example.com/Path" = some "http://example.com/Path" :=
  ⟨by decide,
   normalizeURL_idempotent "HTTP://Example.COM:80/Path/#frag"
     "http://example.com/Path" (by decide)⟩

end Crawler
